import Mathlib

/-!
Verification development for the AgentRLM repository.

Part 1 embeds the Frontend chat application
(src/Frontend/App.tsx, src/Frontend/components/Interface.tsx,
src/Frontend/services/analysisService.ts).

Part 2 models the paper_decomposer pipeline. Its Python sources are not in
the repository snapshot (only its documentation is), so those definitions
are modelled from the specification text, as marked on each definition.
-/
/-! ### Character-list utilities

Executable models of the JavaScript string operations used by the Frontend
code and of the lexical scans described by the specification. They are
written by structural recursion over character lists so that every
definition evaluates inside the kernel. -/
/-- leadsWith pat l is true when pat is an initial segment of l. -/
def leadsWith : List Char → List Char → Bool
  | [], _ => true
  | _ :: _, [] => false
  | p :: ps, x :: xs => (p = x) && leadsWith ps xs
/-- endsWithSeq pat l is true when pat is a final segment of l. -/
def endsWithSeq (pat l : List Char) : Bool :=
  leadsWith pat.reverse l.reverse
/-- containsSeq pat l is true when pat occurs contiguously inside l. -/
def containsSeq (pat : List Char) : List Char → Bool
  | [] => pat.isEmpty
  | x :: xs => leadsWith pat (x :: xs) || containsSeq pat xs
/-- Splits a character list on a separator character; mirrors splitting a
string into lines. -/
def splitOnChar (c : Char) : List Char → List (List Char)
  | [] => [[]]
  | x :: xs =>
    if x = c then [] :: splitOnChar c xs
    else
      match splitOnChar c xs with
      | [] => [[x]]
      | l :: ls => (x :: l) :: ls
/-- Drops whitespace from both ends of a character list. -/
def trimWs (l : List Char) : List Char :=
  ((l.dropWhile Char.isWhitespace).reverse.dropWhile Char.isWhitespace).reverse
/-- Model of the JavaScript String.trim used by Interface.tsx. -/
def jsTrim (s : String) : String :=
  String.mk (trimWs s.data)
/-! ### Frontend data model (src/Frontend/types.ts) -/
/-- SystemState from src/Frontend/types.ts. -/
inductive SystemState
  | IDLE
  | ANALYZING
  | DECISION_READY
  | ERROR
deriving DecidableEq
/-- The role field of a ChatMessage from src/Frontend/types.ts. -/
inductive Role
  | user
  | assistant
deriving DecidableEq
/-- ChatMessage from src/Frontend/types.ts. -/
structure ChatMessage where
  role : Role
  content : String
  timestamp : String
deriving DecidableEq
/-- One entry of the contents array built in analysisService.ts, lines
117-126: an API role string together with the single text part. -/
structure Content where
  role : String
  text : String
deriving DecidableEq
/-! ### analysisService.ts -/
/-- The role mapping of analysisService.ts line 118: the user role maps to
the API role string user, any other role maps to model. -/
def roleToApi (r : Role) : String :=
  if r = Role.user then "user" else "model"
/-- The contents array sent to the model by sendMessage
(analysisService.ts lines 117-126): the mapped history followed by the new
message pushed as a final user entry. -/
def sendMessageContents (history : List ChatMessage) (newMessage : String) :
    List Content :=
  history.map (fun m => ⟨roleToApi m.role, m.content⟩) ++ [⟨"user", newMessage⟩]
/-- Outcome of the generateContent call in sendMessage: either a response
whose text field may be absent or empty, or a thrown exception whose
message field may be absent. -/
inductive ModelOutcome
  | ok (text : Option String)
  | thrown (msg : Option String)
/-- The fixed string returned by sendMessage when no API key is configured
(analysisService.ts line 111). -/
def apiKeyErrorString : String :=
  "Error: API Key not initialized. The Recursive Language Model cannot function without cognitive compute resources."
/-- The fixed fallback returned when the model response text is absent or
empty (analysisService.ts line 138). -/
def nullResponseString : String :=
  "The system converged on a null response. Please rephrase."
/-- The string built in the catch branch of sendMessage
(analysisService.ts line 142). -/
def interruptedString (m : Option String) : String :=
  "Cognitive Recursion Interrupted: " ++ m.getD "Unknown State Exception"
/-- sendMessage from analysisService.ts lines 104-144. The model call is
passed in as a function on the contents array; the returned Bool records
whether that call was made. The result is always a plain string: every
branch of the source returns, none rethrows. -/
def sendMessage (apiKey : Option String) (model : List Content → ModelOutcome)
    (history : List ChatMessage) (newMessage : String) : String × Bool :=
  match apiKey with
  | none => (apiKeyErrorString, false)
  | some _ =>
    match model (sendMessageContents history newMessage) with
    | .thrown e => (interruptedString e, true)
    | .ok none => (nullResponseString, true)
    | .ok (some t) => (if t = "" then nullResponseString else t, true)
/-! ### App.tsx -/
/-- handleSend from src/Frontend/App.tsx lines 11-39. The closure value
history is the state before the optimistic append, and sendMessage is
called with that snapshot; the optimistic append puts the user message at
the end of the stored history. Returns the contents array handed to the
model together with the history after the optimistic append. -/
def handleSend (history : List ChatMessage) (content : String) (now : String) :
    List Content × List ChatMessage :=
  (sendMessageContents history content,
   history ++ [⟨Role.user, content, now⟩])
/-! ### Interface.tsx -/
/-- handleSubmit from src/Frontend/components/Interface.tsx lines 22-28.
Returns the message passed to onSend (none when the guard rejects) and the
value of the input field afterwards. -/
def handleSubmit (input : String) (state : SystemState) :
    Option String × String :=
  if jsTrim input ≠ "" ∧ state ≠ SystemState.ANALYZING then
    (some input, "")
  else
    (none, input)
/-! ### Decomposition Merger/Validator

Modelled from the spec: the paper_decomposer Python module
(paper_decomposer/decompose.py per its documentation) is not in the
repository snapshot, so the merge rule of section 4.1 is modelled from
the specification text. -/
/-- Modelled from the spec: an ExperimentDescription as consumed by the
merge rule; only the identifier takes part in deduplication, the other
fields stand for the content that is NOT reconciled between duplicates. -/
structure Experiment where
  id : String
  title : String
  description : String
deriving DecidableEq
/-- Modelled from the spec: deduplication by identifier with a list of
already-seen identifiers; the first occurrence of an identifier is kept
unchanged, every later occurrence is dropped. -/
def dedupeById (seen : List String) : List Experiment → List Experiment
  | [] => []
  | e :: es =>
    if e.id ∈ seen then dedupeById seen es
    else e :: dedupeById (e.id :: seen) es
/-- Modelled from the spec: the merged experiment list of section 4.1 —
experiments are concatenated across chunks in chunk order, then
deduplicated by identifier, first occurrence wins. -/
def mergeExperiments (chunks : List (List Experiment)) : List Experiment :=
  dedupeById [] chunks.flatten
/-! ### Document data model

Modelled from the spec: section 3 Cell and Document (the notebook builder
paper_decomposer/notebook_gen.py is not in the snapshot). -/
/-- Modelled from the spec: the cell kind discriminator, narrative or
executable. -/
inductive CellKind
  | narrative
  | executable
deriving DecidableEq
/-- Modelled from the spec: one cell — kind, source text and, optionally,
a captured output after execution. -/
structure Cell where
  kind : CellKind
  source : String
  output : Option String
deriving DecidableEq
/-- Modelled from the spec: a Document is an ordered sequence of cells
plus format-version metadata. -/
structure Document where
  formatVersion : Nat
  cells : List Cell
deriving DecidableEq
/-! ### Document Assembler: generate validation

Modelled from the spec, section 4.2. -/
/-- Modelled from the spec: a raw cell as returned by the language-model
collaborator; kind none stands for an unrecognized kind tag. -/
structure RawCell where
  kind : Option CellKind
  source : String
/-- Modelled from the spec: the failure modes of generate — an empty cell
list or a cell with an unrecognized kind. -/
inductive GenerationError
  | emptyCellList
  | unrecognizedKind
deriving DecidableEq
/-- Modelled from the spec: turns a raw cell into a Cell when its kind is
recognized. -/
def toCell (rc : RawCell) : Option Cell :=
  match rc.kind with
  | some k => some ⟨k, rc.source, none⟩
  | none => none
/-- Modelled from the spec: the validation step of generate in section
4.2 — the returned cell list must be non-empty and every cell must have a
recognized kind, else GenerationError. -/
def validateCells (raw : List RawCell) : Except GenerationError (List Cell) :=
  if raw.isEmpty then Except.error GenerationError.emptyCellList
  else
    match raw.mapM toCell with
    | some cells => Except.ok cells
    | none => Except.error GenerationError.unrecognizedKind
/-! ### Iteration Controller

Modelled from the spec, section 4.5 (paper_decomposer/controller.py is not
in the snapshot). The sequence of sandbox outcomes and of fix-request
outcomes are passed in as functions of the attempt number, matching the
in-memory fake the design notes call for. -/
/-- Modelled from the spec: the record of a fix to apply — cell indices
with their replacement source text; a fix may target one or more cells. -/
structure FixRecord where
  targets : List (Nat × String)
deriving DecidableEq
/-- Modelled from the spec: the outcome of one sandbox execution attempt
as the controller classifies it — success, a retryable failure (non-zero
exit, timeout or cell exception), or SandboxUnavailableError. -/
inductive ExecOutcome
  | success
  | failure
  | sandboxUnavailable
deriving DecidableEq
/-- Modelled from the spec: the outcome of one fix request (already after
the single parse retry of section 4.5) — a parsed FixRecord or an
unparsable response. -/
inductive FixOutcome
  | parsed (fix : FixRecord)
  | unparsable
deriving DecidableEq
/-- Modelled from the spec: the terminal condition of a run — SUCCEEDED,
EXHAUSTED, or the generation-failure terminal state distinct from
EXHAUSTED. -/
inductive Terminal
  | succeeded
  | exhausted
  | generationFailure
deriving DecidableEq
/-- Modelled from the spec: the RunReport — final success flag, number of
execution attempts consumed, terminal condition. -/
structure RunReport where
  success : Bool
  iterations : Nat
  terminal : Terminal
deriving DecidableEq
/-- Modelled from the spec: the controller configuration; maxIterations
defaults to 5. -/
structure RunConfig where
  maxIterations : Nat
deriving DecidableEq
/-- Modelled from the spec: the EXECUTING loop of section 4.5, entered
with the current attempt number (1 for the first execution). Success ends
the run; SandboxUnavailableError is terminal at once; a retryable failure
goes through FIXING and re-executes while the attempt count is below
maxIterations, and an unparsable fix is treated as EXHAUSTED. -/
def execLoop (cfg : RunConfig) (execs : Nat → ExecOutcome)
    (fixes : Nat → FixOutcome) (attempt : Nat) : RunReport :=
  match execs attempt with
  | ExecOutcome.success => ⟨true, attempt, Terminal.succeeded⟩
  | ExecOutcome.sandboxUnavailable => ⟨false, attempt, Terminal.exhausted⟩
  | ExecOutcome.failure =>
    if _h : attempt < cfg.maxIterations then
      match fixes attempt with
      | FixOutcome.unparsable => ⟨false, attempt, Terminal.exhausted⟩
      | FixOutcome.parsed _ => execLoop cfg execs fixes (attempt + 1)
    else ⟨false, attempt, Terminal.exhausted⟩
termination_by cfg.maxIterations - attempt
decreasing_by omega
/-- Modelled from the spec: one run of the Iteration Controller — generate
once (a generation failure is fatal, not retried, iterations 0), then the
execute/fix loop starting at attempt 1. -/
def runController (cfg : RunConfig) (gen : List RawCell)
    (execs : Nat → ExecOutcome) (fixes : Nat → FixOutcome) : RunReport :=
  match validateCells gen with
  | Except.error _ => ⟨false, 0, Terminal.generationFailure⟩
  | Except.ok _ => execLoop cfg execs fixes 1
/-! ### Document Assembler: patch

Modelled from the spec, section 4.2 patch. -/
/-- Modelled from the spec: replaces the source text of the cell at one
index, leaving every other cell and the order untouched. -/
def setSource : List Cell → Nat → String → List Cell
  | [], _, _ => []
  | c :: cs, 0, s => ⟨c.kind, s, c.output⟩ :: cs
  | c :: cs, n + 1, s => c :: setSource cs n s
/-- Modelled from the spec: patch of section 4.2 — applies the replacement
texts of a FixRecord to the targeted cells; fails with an IndexError-kind
condition when any targeted index is out of bounds. -/
def patch (d : Document) (fix : FixRecord) : Except String Document :=
  if fix.targets.all (fun p => p.1 < d.cells.length) then
    Except.ok ⟨d.formatVersion,
      fix.targets.foldl (fun cs p => setSource cs p.1 p.2) d.cells⟩
  else Except.error "IndexError: cell index out of range"
/-! ### Document Assembler: serialize and deserialize

Modelled from the spec, sections 3 and 4.2: the on-disk document format is
a versioned, ordered list of cells; serialize must round-trip exactly with
deserialize, preserving cell order, kind and source text. A byte stream is
modelled as a list of natural numbers; each string is written as its
length followed by the code points of its characters. -/
/-- Modelled from the spec: byte encoding of one string, length-led. -/
def encodeString (s : String) : List Nat :=
  s.length :: s.data.map Char.toNat
/-- Modelled from the spec: decoder for one length-led string; returns the
string and the remaining bytes. -/
def decodeString : List Nat → Option (String × List Nat)
  | [] => none
  | n :: rest =>
    if n ≤ rest.length then
      some (String.mk ((rest.take n).map Char.ofNat), rest.drop n)
    else none
/-- Modelled from the spec: byte tag of a cell kind. -/
def kindTag : CellKind → Nat
  | CellKind.narrative => 0
  | CellKind.executable => 1
/-- Modelled from the spec: reads a cell kind back from its byte tag. -/
def kindOfTag : Nat → Option CellKind
  | 0 => some CellKind.narrative
  | 1 => some CellKind.executable
  | _ => none
/-- Modelled from the spec: byte encoding of an optional captured
output. -/
def encodeOutput : Option String → List Nat
  | none => [0]
  | some s => 1 :: encodeString s
/-- Modelled from the spec: byte encoding of one cell — kind tag, source
text, optional captured output. -/
def encodeCell (c : Cell) : List Nat :=
  kindTag c.kind :: (encodeString c.source ++ encodeOutput c.output)
/-- Modelled from the spec: decoder for one cell; returns the cell and the
remaining bytes. -/
def decodeCell (bs : List Nat) : Option (Cell × List Nat) :=
  match bs with
  | [] => none
  | kt :: rest =>
    match kindOfTag kt with
    | none => none
    | some kind =>
      match decodeString rest with
      | none => none
      | some (src, rest2) =>
        match rest2 with
        | 0 :: rest3 => some (⟨kind, src, none⟩, rest3)
        | 1 :: rest3 =>
          match decodeString rest3 with
          | none => none
          | some (out, rest4) => some (⟨kind, src, some out⟩, rest4)
        | _ => none
/-- Modelled from the spec: decoder for a count-led cell sequence. -/
def decodeCells : Nat → List Nat → Option (List Cell × List Nat)
  | 0, bs => some ([], bs)
  | n + 1, bs =>
    match decodeCell bs with
    | none => none
    | some (c, rest) =>
      match decodeCells n rest with
      | none => none
      | some (cs, rest2) => some (c :: cs, rest2)
/-- Modelled from the spec: serialize of section 4.2 — format version,
cell count, then the encoded cells. -/
def serialize (d : Document) : List Nat :=
  d.formatVersion :: d.cells.length :: (d.cells.map encodeCell).flatten
/-- Modelled from the spec: deserialize of section 4.2 — reads the version
and the cell count, decodes exactly that many cells, and requires the byte
stream to be fully consumed. -/
def deserialize (bs : List Nat) : Option Document :=
  match bs with
  | v :: n :: rest =>
    match decodeCells n rest with
    | some (cs, []) => some ⟨v, cs⟩
    | _ => none
  | _ => none
/-! ### Error Extractor

Modelled from the spec, section 4.4 (the extraction module is not in the
snapshot). -/
/-- Modelled from the spec: the lexical exception-signature scan over a
captured output text. -/
def hasExceptionSignature (s : String) : Bool :=
  containsSeq "Traceback".data s.data || containsSeq "Error".data s.data
/-- Modelled from the spec: whether a cell is an executable cell whose
captured output carries an exception signature. -/
def cellFailed (c : Cell) : Bool :=
  c.kind == CellKind.executable &&
    (match c.output with
     | some o => hasExceptionSignature o
     | none => false)
/-- Modelled from the spec: the index of the last executable cell, the
fallback attribution when no per-cell signature is found. -/
def lastExecutableIdx (cells : List Cell) : Option Nat :=
  match cells.reverse.findIdx? (fun c => c.kind == CellKind.executable) with
  | some i => some (cells.length - 1 - i)
  | none => none
/-- Modelled from the spec: cuts a line at the first colon-space, the
shape of the final line of a traceback. -/
def breakColonSpace : List Char → Option (List Char × List Char)
  | [] => none
  | ':' :: ' ' :: rest => some ([], rest)
  | x :: xs =>
    match breakColonSpace xs with
    | none => none
    | some (a, b) => some (x :: a, b)
/-- Modelled from the spec: best-effort parse of one line into exception
type and message; the part before the colon must look like an exception
name. -/
def parseExcLine (l : List Char) : Option (String × String) :=
  match breakColonSpace l with
  | none => none
  | some (t, m) =>
    if endsWithSeq "Error".data t || endsWithSeq "Exception".data t then
      some (String.mk t, String.mk m)
    else none
/-- Modelled from the spec: best-effort scan of a text for the known
traceback shape — the first line that parses as an exception line. -/
def parseTraceback (s : String) : Option (String × String) :=
  (splitOnChar '\n' s.data).findSome? parseExcLine
/-- Modelled from the spec: the normalized result of one sandbox
execution, section 3. -/
structure ExecutionResult where
  stdout : String
  stderr : String
  exitCode : Int
  execTimeMs : Nat
  artifacts : List String
  success : Bool
deriving DecidableEq
/-- Modelled from the spec: the normalized error record of section 3. -/
structure ErrorRecord where
  index : Nat
  excType : String
  message : String
  traceback : String
  cellSource : String
deriving DecidableEq
/-- Modelled from the spec: the bound on kept traceback text. -/
def tracebackLimit : Nat := 2000
/-- Modelled from the spec: keeps at most n characters of a text. -/
def takeChars (n : Nat) (s : String) : String :=
  String.mk (s.data.take n)
/-- Modelled from the spec: the Error Extractor of section 4.4 — a total
function: it locates the first executable cell whose captured output
carries an exception signature, else attributes the failure to the last
executable cell; it best-effort parses the known traceback shape and
otherwise falls back to type Unknown with the raw stderr as message. -/
def extractError (res : ExecutionResult) (doc : Document) : ErrorRecord :=
  match doc.cells.findIdx? cellFailed with
  | some i =>
    let text := ((doc.cells[i]?).bind Cell.output).getD res.stderr
    let src := ((doc.cells[i]?).map Cell.source).getD ""
    match parseTraceback text with
    | some (t, m) => ⟨i, t, m, takeChars tracebackLimit text, src⟩
    | none => ⟨i, "Unknown", res.stderr, takeChars tracebackLimit res.stderr, src⟩
  | none =>
    let i := (lastExecutableIdx doc.cells).getD 0
    let src := ((doc.cells[i]?).map Cell.source).getD ""
    match parseTraceback res.stderr with
    | some (t, m) => ⟨i, t, m, takeChars tracebackLimit res.stderr, src⟩
    | none => ⟨i, "Unknown", res.stderr, takeChars tracebackLimit res.stderr, src⟩

/-! ### Frontend theorems -/
/-- Helper: the last entry of a list with one element appended. -/
theorem getLast?_append_singleton {α : Type} (l : List α) (a : α) :
    (l ++ [a]).getLast? = some a := by
  induction l with
  | nil => rfl
  | cons x xs ih =>
    cases xs with
    | nil => rfl
    | cons y ys =>
      rw [List.cons_append, List.cons_append, List.getLast?_cons_cons,
        ← List.cons_append]
      exact ih
/-- C8: sendMessage always resolves to a plain string (it is a total
function into String): with no API key it returns the fixed
key-missing string without invoking the model; a thrown model exception is
caught and returned with the fixed interruption marker in front; an absent
or empty response text yields the fixed null-response fallback; a
non-empty response text is returned as is. -/
theorem sendMessage_total_error_handling
    (model : List Content → ModelOutcome) (history : List ChatMessage)
    (newMessage : String) :
    (sendMessage none model history newMessage = (apiKeyErrorString, false))
  ∧ (∀ k e, model (sendMessageContents history newMessage) = ModelOutcome.thrown e →
      sendMessage (some k) model history newMessage = (interruptedString e, true))
  ∧ (∀ k, (model (sendMessageContents history newMessage) = ModelOutcome.ok none ∨
           model (sendMessageContents history newMessage) = ModelOutcome.ok (some "")) →
      sendMessage (some k) model history newMessage = (nullResponseString, true))
  ∧ (∀ k t, t ≠ "" → model (sendMessageContents history newMessage) = ModelOutcome.ok (some t) →
      sendMessage (some k) model history newMessage = (t, true)) := by
  refine ⟨rfl, ?_, ?_, ?_⟩
  · intro k e h
    simp [sendMessage, h]
  · intro k h
    rcases h with h | h <;> simp [sendMessage, h]
  · intro k t ht h
    simp [sendMessage, h, ht]
/-- C8 witness: a thrown exception at a concrete input is caught and
returned as the interruption string. -/
theorem sendMessage_total_error_handling_witness :
    sendMessage (some "k") (fun _ => ModelOutcome.thrown (some "boom")) [] "q"
      = (interruptedString (some "boom"), true) :=
  (sendMessage_total_error_handling
    (fun _ => ModelOutcome.thrown (some "boom")) [] "q").2.1 "k" (some "boom") rfl
/-- C9 counterexample: when the pre-existing history already holds a
message whose content equals the new message, the contents array holds
that text twice, so it does not contain it exactly once. -/
theorem handleSend_content_not_unique :
    ¬ ((handleSend [⟨Role.user, "hi", "t0"⟩] "hi" "t1").1.countP
        (fun p => p.text == "hi") = 1) := by
  decide
/-- C9 amended: the contents array handed to the model is the mapped
pre-append history snapshot with the new message appended once as a
separate final entry of role user; every history entry whose role is not
user maps to role model; and when no history entry already carries the
new text, that text occurs exactly once in the contents. -/
theorem handleSend_contents_final_user_entry
    (history : List ChatMessage) (c now : String) :
    ((handleSend history c now).1
        = history.map (fun m => ⟨roleToApi m.role, m.content⟩) ++ [⟨"user", c⟩])
  ∧ (handleSend history c now).1.getLast? = some ⟨"user", c⟩
  ∧ (∀ m : ChatMessage, m.role ≠ Role.user → roleToApi m.role = "model")
  ∧ ((∀ m ∈ history, m.content ≠ c) →
      (handleSend history c now).1.countP (fun p => p.text == c) = 1) := by
  refine ⟨rfl, getLast?_append_singleton _ _, ?_, ?_⟩
  · intro m hm
    simp [roleToApi, hm]
  · intro h
    have hzero :
        (history.map (fun m => (⟨roleToApi m.role, m.content⟩ : Content))).countP
          (fun p => p.text == c) = 0 := by
      rw [List.countP_eq_zero]
      intro p hp
      rcases List.mem_map.mp hp with ⟨m, hm, rfl⟩
      simpa using h m hm
    show (sendMessageContents history c).countP (fun p => p.text == c) = 1
    unfold sendMessageContents
    rw [List.countP_append, hzero]
    simp
/-- C9 amended witness: at a concrete history carrying none of the new
text, the new text occurs exactly once in the contents array. -/
theorem handleSend_contents_final_user_entry_witness :
    (handleSend [⟨Role.assistant, "a", "t0"⟩] "b" "t1").1.countP
      (fun p => p.text == "b") = 1 :=
  (handleSend_contents_final_user_entry
    [⟨Role.assistant, "a", "t0"⟩] "b" "t1").2.2.2 (by decide)
/-- C10: handleSubmit passes the input to onSend exactly when the trimmed
input is non-empty and the state is not ANALYZING; whenever it sends, the
input field is reset to the empty string, and the sent message is the
(untrimmed) input. -/
theorem handleSubmit_send_guard (input : String) (state : SystemState) :
    ((handleSubmit input state).1 ≠ none ↔
      (jsTrim input ≠ "" ∧ state ≠ SystemState.ANALYZING))
  ∧ ((handleSubmit input state).1 ≠ none → (handleSubmit input state).2 = "")
  ∧ (∀ m, (handleSubmit input state).1 = some m → m = input) := by
  unfold handleSubmit
  split <;> simp_all
/-- C10 witness: a concrete non-empty input in the IDLE state is sent and
the input field is cleared. -/
theorem handleSubmit_send_guard_witness :
    (handleSubmit "hi" SystemState.IDLE).2 = "" :=
  (handleSubmit_send_guard "hi" SystemState.IDLE).2.1 (by decide)
/-! ### Merger lemmas -/
/-- Deduplication only keeps elements of the input. -/
theorem mem_dedupeById {e : Experiment} :
    ∀ {seen : List String} {l : List Experiment},
      e ∈ dedupeById seen l → e ∈ l ∧ e.id ∉ seen := by
  intro seen l
  induction l generalizing seen with
  | nil => intro h; cases h
  | cons x xs ih =>
    intro h
    rw [dedupeById] at h
    by_cases hx : x.id ∈ seen
    · rw [if_pos hx] at h
      have := ih h
      exact ⟨List.mem_cons_of_mem _ this.1, this.2⟩
    · rw [if_neg hx] at h
      rcases List.mem_cons.mp h with rfl | h
      · exact ⟨List.mem_cons_self _ _, hx⟩
      · have := ih h
        refine ⟨List.mem_cons_of_mem _ this.1, fun hc => this.2 ?_⟩
        exact List.mem_cons_of_mem _ hc
/-- Deduplication returns a sublist of its input, so relative order and
the elements themselves are preserved. -/
theorem dedupeById_sublist :
    ∀ (seen : List String) (l : List Experiment),
      (dedupeById seen l).Sublist l := by
  intro seen l
  induction l generalizing seen with
  | nil => exact List.Sublist.refl _
  | cons x xs ih =>
    rw [dedupeById]
    by_cases hx : x.id ∈ seen
    · rw [if_pos hx]
      exact (ih seen).cons x
    · rw [if_neg hx]
      exact (ih (x.id :: seen)).cons₂ x
/-- The identifiers of a deduplicated list carry no duplicate. -/
theorem dedupeById_nodup :
    ∀ (seen : List String) (l : List Experiment),
      ((dedupeById seen l).map (fun e => e.id)).Nodup := by
  intro seen l
  induction l generalizing seen with
  | nil => exact List.nodup_nil
  | cons x xs ih =>
    rw [dedupeById]
    by_cases hx : x.id ∈ seen
    · rw [if_pos hx]
      exact ih seen
    · rw [if_neg hx]
      rw [List.map_cons, List.nodup_cons]
      refine ⟨fun hc => ?_, ih (x.id :: seen)⟩
      rcases List.mem_map.mp hc with ⟨e, he, hid⟩
      exact (mem_dedupeById he).2 (by rw [hid]; exact List.mem_cons_self _ _)
/-- Deduplication keeps the first element carrying any identifier that was
not already seen. -/
theorem dedupeById_find? (x : String) :
    ∀ (seen : List String) (l : List Experiment), x ∉ seen →
      (dedupeById seen l).find? (fun e => e.id == x)
        = l.find? (fun e => e.id == x) := by
  intro seen l
  induction l generalizing seen with
  | nil => intro _; rfl
  | cons e es ih =>
    intro hx
    rw [dedupeById]
    by_cases he : e.id ∈ seen
    · rw [if_pos he]
      have hne : (e.id == x) = false := by
        simp only [beq_eq_false_iff_ne, ne_eq]
        intro hc
        exact hx (hc ▸ he)
      rw [List.find?_cons_of_neg _ (by simp [hne]), ih seen hx]
    · rw [if_neg he]
      by_cases hex : e.id = x
      · rw [List.find?_cons_of_pos _ (by simp [hex]),
          List.find?_cons_of_pos _ (by simp [hex])]
      · rw [List.find?_cons_of_neg _ (by simp [hex]),
          List.find?_cons_of_neg _ (by simp [hex])]
        refine ih (e.id :: seen) ?_
        intro hc
        rcases List.mem_cons.mp hc with hc | hc
        · exact hex hc.symm
        · exact hx hc
/-- C4: the merged experiment list never holds two experiments with the
same identifier, it is a sublist of the chunk-order concatenation (so
first-seen order is preserved and kept experiments are unchanged), for
every identifier the kept experiment is exactly the first occurrence in
chunk order (so later duplicates are dropped even when their fields
differ), and no identifier present in any chunk is lost. -/
theorem mergeExperiments_order_stable_dedup (chunks : List (List Experiment)) :
    ((mergeExperiments chunks).map (fun e => e.id)).Nodup
  ∧ (mergeExperiments chunks).Sublist chunks.flatten
  ∧ (∀ x, (mergeExperiments chunks).find? (fun e => e.id == x)
      = chunks.flatten.find? (fun e => e.id == x))
  ∧ (∀ e ∈ chunks.flatten, ∃ e' ∈ mergeExperiments chunks, e'.id = e.id) := by
  refine ⟨dedupeById_nodup [] _, dedupeById_sublist [] _, ?_, ?_⟩
  · intro x
    exact dedupeById_find? x [] chunks.flatten (by simp)
  · intro e he
    have hfind : chunks.flatten.find? (fun a => a.id == e.id) ≠ none := by
      intro hc
      have := List.find?_eq_none.mp hc e he
      simp at this
    rcases Option.ne_none_iff_exists'.mp hfind with ⟨e', he'⟩
    have hmem : e' ∈ mergeExperiments chunks := by
      have := dedupeById_find? e.id [] chunks.flatten (by simp)
      rw [show mergeExperiments chunks = dedupeById [] chunks.flatten from rfl]
      exact List.mem_of_find?_eq_some (this ▸ he')
    refine ⟨e', hmem, ?_⟩
    have := List.find?_some he'
    simpa using this
/-! ### Iteration Controller theorems -/
/-- Helper: the loop on a retryable failure with no budget left. -/
theorem execLoop_eq_exhausted (cfg : RunConfig) (execs : Nat → ExecOutcome)
    (fixes : Nat → FixOutcome) (attempt : Nat)
    (h : execs attempt = ExecOutcome.failure)
    (hge : ¬ attempt < cfg.maxIterations) :
    execLoop cfg execs fixes attempt = ⟨false, attempt, Terminal.exhausted⟩ := by
  conv_lhs => rw [execLoop]
  rw [h]
  exact dif_neg hge
/-- Helper: the loop on a retryable failure whose fix response stays
unparsable. -/
theorem execLoop_eq_fix_unparsable (cfg : RunConfig) (execs : Nat → ExecOutcome)
    (fixes : Nat → FixOutcome) (attempt : Nat)
    (h : execs attempt = ExecOutcome.failure)
    (hlt : attempt < cfg.maxIterations)
    (hfx : fixes attempt = FixOutcome.unparsable) :
    execLoop cfg execs fixes attempt = ⟨false, attempt, Terminal.exhausted⟩ := by
  conv_lhs => rw [execLoop]
  rw [h, dif_pos hlt, hfx]
/-- Helper: the loop on a retryable failure with a parsed fix re-executes
at the next attempt number. -/
theorem execLoop_eq_fix_parsed (cfg : RunConfig) (execs : Nat → ExecOutcome)
    (fixes : Nat → FixOutcome) (attempt : Nat) (f : FixRecord)
    (h : execs attempt = ExecOutcome.failure)
    (hlt : attempt < cfg.maxIterations)
    (hfx : fixes attempt = FixOutcome.parsed f) :
    execLoop cfg execs fixes attempt = execLoop cfg execs fixes (attempt + 1) := by
  conv_lhs => rw [execLoop]
  rw [h, dif_pos hlt, hfx]
/-- Helper: under all-failure sandbox outcomes the loop ends in EXHAUSTED
with an attempt count bounded by maxIterations; proved by induction on the
remaining budget. -/
theorem execLoop_all_failures (cfg : RunConfig) (execs : Nat → ExecOutcome)
    (fixes : Nat → FixOutcome) (hfail : ∀ k, execs k = ExecOutcome.failure) :
    ∀ fuel attempt, cfg.maxIterations - attempt ≤ fuel →
      attempt ≤ cfg.maxIterations →
      (execLoop cfg execs fixes attempt).success = false
      ∧ (execLoop cfg execs fixes attempt).terminal = Terminal.exhausted
      ∧ (execLoop cfg execs fixes attempt).iterations ≤ cfg.maxIterations := by
  intro fuel
  induction fuel with
  | zero =>
    intro attempt hle hb
    rw [execLoop_eq_exhausted cfg execs fixes attempt (hfail attempt) (by omega)]
    exact ⟨rfl, rfl, hb⟩
  | succ n ih =>
    intro attempt hle hb
    by_cases hlt : attempt < cfg.maxIterations
    · cases hfx : fixes attempt with
      | unparsable =>
        rw [execLoop_eq_fix_unparsable cfg execs fixes attempt
          (hfail attempt) hlt hfx]
        exact ⟨rfl, rfl, hb⟩
      | parsed f =>
        rw [execLoop_eq_fix_parsed cfg execs fixes attempt f
          (hfail attempt) hlt hfx]
        exact ih (attempt + 1) (by omega) (by omega)
    · rw [execLoop_eq_exhausted cfg execs fixes attempt (hfail attempt) hlt]
      exact ⟨rfl, rfl, hb⟩
/-- C1: when generation validates and every execution attempt fails
retryably, the run (which by construction recurses only while the attempt
count is below maxIterations, so it never loops indefinitely) performs at
most maxIterations execution attempts and terminates in EXHAUSTED. -/
theorem iteration_bound_all_failures (cfg : RunConfig) (gen : List RawCell)
    (cells : List Cell) (execs : Nat → ExecOutcome) (fixes : Nat → FixOutcome)
    (hmax : 1 ≤ cfg.maxIterations)
    (hgen : validateCells gen = Except.ok cells)
    (hfail : ∀ k, execs k = ExecOutcome.failure) :
    (runController cfg gen execs fixes).success = false
    ∧ (runController cfg gen execs fixes).terminal = Terminal.exhausted
    ∧ (runController cfg gen execs fixes).iterations ≤ cfg.maxIterations := by
  unfold runController
  rw [hgen]
  exact execLoop_all_failures cfg execs fixes hfail
    (cfg.maxIterations - 1) 1 (by omega) hmax
/-- C1 witness: with maxIterations 2 and every attempt failing, the run
ends exhausted within the budget at a concrete input. -/
theorem iteration_bound_all_failures_witness :
    (runController ⟨2⟩ [⟨some CellKind.executable, "x = 1"⟩]
        (fun _ => ExecOutcome.failure)
        (fun _ => FixOutcome.parsed ⟨[]⟩)).success = false
    ∧ (runController ⟨2⟩ [⟨some CellKind.executable, "x = 1"⟩]
        (fun _ => ExecOutcome.failure)
        (fun _ => FixOutcome.parsed ⟨[]⟩)).terminal = Terminal.exhausted
    ∧ (runController ⟨2⟩ [⟨some CellKind.executable, "x = 1"⟩]
        (fun _ => ExecOutcome.failure)
        (fun _ => FixOutcome.parsed ⟨[]⟩)).iterations ≤ 2 :=
  iteration_bound_all_failures ⟨2⟩ [⟨some CellKind.executable, "x = 1"⟩]
    [⟨CellKind.executable, "x = 1", none⟩]
    (fun _ => ExecOutcome.failure) (fun _ => FixOutcome.parsed ⟨[]⟩)
    (by decide) rfl (fun _ => rfl)
/-- C2: a SandboxUnavailableError at any execution attempt makes the loop
return at once with terminal EXHAUSTED and the attempt count frozen at the
current attempt, regardless of remaining budget — no further execution
attempt follows in the same run. -/
theorem sandbox_unavailable_immediately_terminal (cfg : RunConfig)
    (execs : Nat → ExecOutcome) (fixes : Nat → FixOutcome) (attempt : Nat)
    (h : execs attempt = ExecOutcome.sandboxUnavailable) :
    execLoop cfg execs fixes attempt = ⟨false, attempt, Terminal.exhausted⟩ := by
  conv_lhs => rw [execLoop]
  rw [h]
/-- C2 witness: a sandbox-unavailable outcome on the first attempt of a
five-iteration budget is terminal at once. -/
theorem sandbox_unavailable_immediately_terminal_witness :
    execLoop ⟨5⟩ (fun _ => ExecOutcome.sandboxUnavailable)
      (fun _ => FixOutcome.unparsable) 1 = ⟨false, 1, Terminal.exhausted⟩ :=
  sandbox_unavailable_immediately_terminal ⟨5⟩
    (fun _ => ExecOutcome.sandboxUnavailable)
    (fun _ => FixOutcome.unparsable) 1 rfl
/-- C6: when generate returns an empty or malformed cell list the run ends
at once in the generation-failure terminal state (distinct from
EXHAUSTED) with iterations 0, independently of any execution or fix
outcomes — so no execution attempt is made and generation is not
retried. -/
theorem generation_failure_terminal (cfg : RunConfig) (gen : List RawCell)
    (e : GenerationError) (hgen : validateCells gen = Except.error e) :
    (∀ execs fixes, runController cfg gen execs fixes
        = ⟨false, 0, Terminal.generationFailure⟩)
    ∧ Terminal.generationFailure ≠ Terminal.exhausted := by
  refine ⟨?_, by decide⟩
  intro execs fixes
  unfold runController
  rw [hgen]
/-- C6 witness: an empty generated cell list at a concrete input yields
the generation-failure report with iterations 0. -/
theorem generation_failure_terminal_witness :
    runController ⟨5⟩ [] (fun _ => ExecOutcome.success)
      (fun _ => FixOutcome.unparsable)
      = ⟨false, 0, Terminal.generationFailure⟩ :=
  (generation_failure_terminal ⟨5⟩ [] GenerationError.emptyCellList rfl).1
    (fun _ => ExecOutcome.success) (fun _ => FixOutcome.unparsable)
/-! ### Patch lemmas -/
/-- Replacing one source keeps the number of cells. -/
theorem setSource_length :
    ∀ (cs : List Cell) (i : Nat) (s : String),
      (setSource cs i s).length = cs.length := by
  intro cs
  induction cs with
  | nil => intro i s; rfl
  | cons c cs ih =>
    intro i s
    cases i with
    | zero => rfl
    | succ n => simpa [setSource] using ih n s
/-- Cellwise description of setSource: the targeted position gets the new
source, every other position is unchanged. -/
theorem setSource_getElem? :
    ∀ (cs : List Cell) (i : Nat) (s : String) (j : Nat),
      (setSource cs i s)[j]?
        = if j = i then (cs[j]?).map (fun c => ⟨c.kind, s, c.output⟩)
          else cs[j]? := by
  intro cs
  induction cs with
  | nil =>
    intro i s j
    simp [setSource]
  | cons c cs ih =>
    intro i s j
    cases i with
    | zero =>
      cases j with
      | zero => simp [setSource]
      | succ k => simp [setSource]
    | succ n =>
      cases j with
      | zero => simp [setSource]
      | succ k =>
        rw [setSource, List.getElem?_cons_succ, List.getElem?_cons_succ, ih n s k]
        by_cases hk : k = n
        · rw [if_pos hk, if_pos (by omega)]
        · rw [if_neg hk, if_neg (by omega)]
/-- Folding a fix list over the cells keeps the number of cells. -/
theorem foldl_setSource_length (targets : List (Nat × String)) :
    ∀ (cs : List Cell),
      (targets.foldl (fun cs p => setSource cs p.1 p.2) cs).length
        = cs.length := by
  induction targets with
  | nil => intro cs; rfl
  | cons p ps ih =>
    intro cs
    rw [List.foldl_cons, ih, setSource_length]
/-- Positions not targeted by any fix are bit-identical after the fold. -/
theorem foldl_setSource_frame (targets : List (Nat × String)) :
    ∀ (cs : List Cell) (j : Nat), (∀ p ∈ targets, p.1 ≠ j) →
      (targets.foldl (fun cs p => setSource cs p.1 p.2) cs)[j]? = cs[j]? := by
  induction targets with
  | nil => intro cs j _; rfl
  | cons p ps ih =>
    intro cs j h
    rw [List.foldl_cons, ih _ j (fun q hq => h q (List.mem_cons_of_mem _ hq)),
      setSource_getElem?,
      if_neg (fun hc => h p (List.mem_cons_self _ _) hc.symm)]
/-- The fold never changes a kind or a captured output, at any position:
only source text is replaced. -/
theorem foldl_setSource_kind_output (targets : List (Nat × String)) :
    ∀ (cs : List Cell) (j : Nat),
      ((targets.foldl (fun cs p => setSource cs p.1 p.2) cs)[j]?).map Cell.kind
        = (cs[j]?).map Cell.kind
      ∧ ((targets.foldl (fun cs p => setSource cs p.1 p.2) cs)[j]?).map Cell.output
        = (cs[j]?).map Cell.output := by
  induction targets with
  | nil => intro cs j; exact ⟨rfl, rfl⟩
  | cons p ps ih =>
    intro cs j
    rw [List.foldl_cons]
    refine ⟨?_, ?_⟩
    · rw [(ih (setSource cs p.1 p.2) j).1, setSource_getElem?]
      by_cases hj : j = p.1
      · rw [if_pos hj]
        cases hc : cs[j]? <;> rfl
      · rw [if_neg hj]
    · rw [(ih (setSource cs p.1 p.2) j).2, setSource_getElem?]
      by_cases hj : j = p.1
      · rw [if_pos hj]
        cases hc : cs[j]? <;> rfl
      · rw [if_neg hj]
/-- When the targeted indices are pairwise distinct, each targeted cell
ends with its replacement source. -/
theorem foldl_setSource_targeted :
    ∀ (targets : List (Nat × String)), ((targets.map Prod.fst).Nodup) →
      ∀ (cs : List Cell), ∀ p ∈ targets, p.1 < cs.length →
        ((targets.foldl (fun cs q => setSource cs q.1 q.2) cs)[p.1]?).map
            Cell.source = some p.2 := by
  intro targets
  induction targets with
  | nil =>
    intro _ cs p hp
    cases hp
  | cons q qs ih =>
    intro hnd cs p hp hlt
    rw [List.map_cons, List.nodup_cons] at hnd
    rw [List.foldl_cons]
    rcases List.mem_cons.mp hp with rfl | hp
    · rw [foldl_setSource_frame qs _ p.1
        (fun r hr hc => hnd.1 (hc ▸ List.mem_map_of_mem Prod.fst hr)),
        setSource_getElem?, if_pos rfl, List.getElem?_eq_getElem hlt]
      rfl
    · exact ih hnd.2 _ p hp (by rw [setSource_length]; exact hlt)
/-- C5: with every targeted index in bounds, patch succeeds and changes
only the source text of the targeted cells — the cell count is kept, every
non-targeted position is bit-identical, kinds and captured outputs are
untouched everywhere, and (for pairwise distinct targets) each targeted
cell carries its replacement text; with any index out of bounds, patch
fails with the IndexError-kind condition. -/
theorem patch_localized (d : Document) (fix : FixRecord) :
    ((∀ p ∈ fix.targets, p.1 < d.cells.length) →
      ∃ d', patch d fix = Except.ok d'
        ∧ d'.formatVersion = d.formatVersion
        ∧ d'.cells.length = d.cells.length
        ∧ (∀ j : Nat, (∀ p ∈ fix.targets, p.1 ≠ j) → d'.cells[j]? = d.cells[j]?)
        ∧ (∀ j : Nat, (d'.cells[j]?).map Cell.kind = (d.cells[j]?).map Cell.kind
            ∧ (d'.cells[j]?).map Cell.output = (d.cells[j]?).map Cell.output)
        ∧ ((fix.targets.map Prod.fst).Nodup →
            ∀ p ∈ fix.targets, (d'.cells[p.1]?).map Cell.source = some p.2))
  ∧ ((∃ p ∈ fix.targets, ¬ p.1 < d.cells.length) →
      patch d fix = Except.error "IndexError: cell index out of range") := by
  constructor
  · intro hin
    have hall : fix.targets.all (fun p => p.1 < d.cells.length) = true := by
      simp only [List.all_eq_true, decide_eq_true_eq]
      exact hin
    refine ⟨⟨d.formatVersion,
        fix.targets.foldl (fun cs p => setSource cs p.1 p.2) d.cells⟩,
      ?_, rfl, foldl_setSource_length _ _,
      fun j hj => foldl_setSource_frame _ _ j hj,
      fun j => foldl_setSource_kind_output _ _ j,
      fun hnd p hp => foldl_setSource_targeted _ hnd _ p hp (hin p hp)⟩
    unfold patch
    rw [if_pos hall]
  · intro hex
    rcases hex with ⟨p, hp, hlt⟩
    have hne : ¬ fix.targets.all (fun q => q.1 < d.cells.length) = true := by
      simp only [List.all_eq_true, decide_eq_true_eq]
      push_neg
      exact ⟨p, hp, by omega⟩
    unfold patch
    rw [if_neg hne]
/-- C4 witness: at the Scenario A chunks — the identifier e2 appears in
both chunks with different fields — the merged list still carries an
experiment with identifier e2. -/
theorem mergeExperiments_order_stable_dedup_witness :
    ∃ e' ∈ mergeExperiments
      [[⟨"e1", "t1", "d1"⟩, ⟨"e2", "t2", "d2"⟩],
       [⟨"e2", "other", "other"⟩, ⟨"e3", "t3", "d3"⟩]], e'.id = "e2" :=
  (mergeExperiments_order_stable_dedup
    [[⟨"e1", "t1", "d1"⟩, ⟨"e2", "t2", "d2"⟩],
     [⟨"e2", "other", "other"⟩, ⟨"e3", "t3", "d3"⟩]]).2.2.2
    ⟨"e2", "other", "other"⟩ (by decide)

/-- C5 witness: patching the second cell of a concrete two-cell document
succeeds with the localized-change guarantees. -/
theorem patch_localized_witness :
    ∃ d', patch ⟨4, [⟨CellKind.narrative, "intro", none⟩,
        ⟨CellKind.executable, "x = 1", none⟩]⟩ ⟨[(1, "x = 2")]⟩
          = Except.ok d'
      ∧ d'.formatVersion
          = (⟨4, [⟨CellKind.narrative, "intro", none⟩,
              ⟨CellKind.executable, "x = 1", none⟩]⟩ : Document).formatVersion
      ∧ d'.cells.length
          = (⟨4, [⟨CellKind.narrative, "intro", none⟩,
              ⟨CellKind.executable, "x = 1", none⟩]⟩ : Document).cells.length
      ∧ (∀ j : Nat, (∀ p ∈ (⟨[(1, "x = 2")]⟩ : FixRecord).targets, p.1 ≠ j) →
          d'.cells[j]?
            = (⟨4, [⟨CellKind.narrative, "intro", none⟩,
                ⟨CellKind.executable, "x = 1", none⟩]⟩ : Document).cells[j]?)
      ∧ (∀ j : Nat, (d'.cells[j]?).map Cell.kind
            = ((⟨4, [⟨CellKind.narrative, "intro", none⟩,
                ⟨CellKind.executable, "x = 1", none⟩]⟩ :
                  Document).cells[j]?).map Cell.kind
          ∧ (d'.cells[j]?).map Cell.output
            = ((⟨4, [⟨CellKind.narrative, "intro", none⟩,
                ⟨CellKind.executable, "x = 1", none⟩]⟩ :
                  Document).cells[j]?).map Cell.output)
      ∧ (((⟨[(1, "x = 2")]⟩ : FixRecord).targets.map Prod.fst).Nodup →
          ∀ p ∈ (⟨[(1, "x = 2")]⟩ : FixRecord).targets,
            (d'.cells[p.1]?).map Cell.source = some p.2) :=
  (patch_localized ⟨4, [⟨CellKind.narrative, "intro", none⟩,
      ⟨CellKind.executable, "x = 1", none⟩]⟩ ⟨[(1, "x = 2")]⟩).1 (by decide)
/-! ### Serialization lemmas -/
/-- A kind tag reads back as the kind it was written from. -/
theorem kindOfTag_kindTag (k : CellKind) : kindOfTag (kindTag k) = some k := by
  cases k <;> rfl
/-- One encoded string decodes back exactly, leaving the trailing bytes
untouched. -/
theorem decodeString_encodeString (s : String) (t : List Nat) :
    decodeString (encodeString s ++ t) = some (s, t) := by
  have h1 : s.length = (s.data.map Char.toNat).length := by
    rw [List.length_map]
    rfl
  rw [encodeString, List.cons_append]
  simp only [decodeString]
  rw [h1, if_pos (by simp), List.take_left, List.drop_left]
  have h3 : ∀ l : List Char, (l.map Char.toNat).map Char.ofNat = l := by
    intro l
    induction l with
    | nil => rfl
    | cons c cs ih => simp [ih, Char.ofNat_toNat]
  rw [h3 s.data]
/-- One encoded cell decodes back exactly, kind, source and output
preserved, leaving the trailing bytes untouched. -/
theorem decodeCell_encodeCell (c : Cell) (t : List Nat) :
    decodeCell (encodeCell c ++ t) = some (c, t) := by
  obtain ⟨k, src, out⟩ := c
  cases out with
  | none =>
    simp [encodeCell, encodeOutput, decodeCell, List.cons_append,
      List.append_assoc, kindOfTag_kindTag, decodeString_encodeString]
  | some o =>
    simp [encodeCell, encodeOutput, decodeCell, List.cons_append,
      List.append_assoc, kindOfTag_kindTag, decodeString_encodeString]
/-- A count-led encoded cell sequence decodes back exactly. -/
theorem decodeCells_encode (cs : List Cell) (t : List Nat) :
    decodeCells cs.length ((cs.map encodeCell).flatten ++ t) = some (cs, t) := by
  induction cs generalizing t with
  | nil => simp [decodeCells]
  | cons c cs ih =>
    simp [decodeCells, List.map_cons, List.flatten_cons, List.append_assoc,
      decodeCell_encodeCell, ih]
/-- C3: for every Document, deserialize of serialize gives back the same
Document — cell order, kind, source text and captured outputs are all
preserved exactly. -/
theorem deserialize_serialize_roundtrip (d : Document) :
    deserialize (serialize d) = some d := by
  obtain ⟨v, cs⟩ := d
  have h := decodeCells_encode cs []
  rw [List.append_nil] at h
  simp [serialize, deserialize, h]
/-- C7: the Error Extractor is a total function into ErrorRecord (so it
never raises), and when no error text can be located — no cell output
carries an exception signature and the stderr has no parsable traceback
line — it returns an ErrorRecord with exception type Unknown and the raw
stderr as the message. -/
theorem extractError_unknown_fallback (res : ExecutionResult) (doc : Document)
    (_hfail : res.success = false)
    (hcell : doc.cells.findIdx? cellFailed = none)
    (hparse : parseTraceback res.stderr = none) :
    (extractError res doc).excType = "Unknown"
    ∧ (extractError res doc).message = res.stderr := by
  unfold extractError
  rw [hcell, hparse]
  exact ⟨rfl, rfl⟩
/-- C7 witness: a failed result whose stderr is plain text with no
traceback shape, against a document with one narrative cell, yields the
Unknown record carrying the raw stderr. -/
theorem extractError_unknown_fallback_witness :
    (extractError ⟨"", "boom", 1, 0, [], false⟩
        ⟨4, [⟨CellKind.narrative, "intro", none⟩]⟩).excType = "Unknown"
    ∧ (extractError ⟨"", "boom", 1, 0, [], false⟩
        ⟨4, [⟨CellKind.narrative, "intro", none⟩]⟩).message = "boom" :=
  extractError_unknown_fallback ⟨"", "boom", 1, 0, [], false⟩
    ⟨4, [⟨CellKind.narrative, "intro", none⟩]⟩ rfl (by decide) (by decide)
